import Mathlib

/-!
# code996-python — verification of the statistical core

Shallow embedding of the statistical pipeline of `code996_local.py`.

Modelling conventions:
* Python float arithmetic is modelled by exact rational arithmetic (`ℚ`);
  `math.ceil` is `Int.ceil`, Python's `round` (banker's rounding: nearest
  integer, ties to even) is `pyRound`.
* Hour labels are the strings `"00".."23"` in the source (zero padded, so
  lexicographic string order equals numeric order); they are modelled as `ℕ`.
  The weekday labels 周一..周日 are modelled as `1..7`.
* `sys.exit(1)` raises `SystemExit`, which derives from `BaseException`, not
  `Exception`; it is therefore *not* caught by the `except Exception` clause
  of `MultiRepoAnalyzer.analyze` and terminates the whole process.  These
  process-fatal paths are modelled by `Except.error` values that the
  aggregation loop cannot recover from (`StepResult.fatal`), while exceptions
  that the loop does catch are `StepResult.caught`.
-/

/-- One entry of `hour_data` / `week_data`: a time label and a commit count. -/
structure Item where
  time : ℕ
  count : ℕ
deriving DecidableEq, Repr

/-- Labels of the two-category splits (`工作`/`加班` and `工作日`/`周末`). -/
inductive PLabel
  | work | overtime | workday | weekend
deriving DecidableEq, Repr

/-- One entry of `work_hour_pl` / `work_week_pl`. -/
structure PLItem where
  time : PLabel
  count : ℕ
deriving DecidableEq, Repr

/-- One parsed commit: hour-of-day (git `%H`, 0–23) and ISO weekday
(git `%u`, 1=Monday … 7=Sunday). -/
structure GitEvent where
  hour : ℕ
  weekday : ℕ
deriving DecidableEq, Repr

/-- Python's built-in `round`: nearest integer, ties go to the even integer. -/
def pyRound (q : ℚ) : ℤ :=
  if q - Int.floor q < 1/2 then Int.floor q
  else if (1 : ℚ)/2 < q - Int.floor q then Int.floor q + 1
  else if Int.floor q % 2 = 0 then Int.floor q else Int.floor q + 1

/-- `sum(item['count'] for item in l)`. -/
def totalCount (l : List Item) : ℕ := (l.map Item.count).sum

/-- `sum(item['count'] ** 2 for item in l)`. -/
def sumSq (l : List Item) : ℕ := (l.map (fun it => it.count * it.count)).sum

/-- `sorted(counts.keys())`: the distinct values of `l` in increasing order. -/
def sortedKeys (l : List ℕ) : List ℕ := l.dedup.insertionSort (· ≤ ·)

/-- `Code996Analyzer.get_hour_stats` (src lines 250–263): one entry per
distinct observed hour, in increasing order, counting the events that fall
on that hour.  (The git invocation and `parse_date_output` are modelled by
taking the event stream directly.) -/
def get_hour_stats (events : List GitEvent) : List Item :=
  (sortedKeys (events.map GitEvent.hour)).map
    (fun h => ⟨h, (events.filter (fun e => decide (e.hour = h))).length⟩)

/-- `Code996Analyzer.get_week_stats` (src lines 265–284): always all 7
weekdays in order Monday..Sunday, zero filled. -/
def get_week_stats (events : List GitEvent) : List Item :=
  [1, 2, 3, 4, 5, 6, 7].map
    (fun d => ⟨d, (events.filter (fun e => decide (e.weekday = d))).length⟩)

/-- The `item['count'] / standard_value >= 0.45` test of
`calculate_work_time_range`, where `standard_value = sqrt(sum(count²)/n)`.
Since counts are nonnegative and the mean square is positive whenever the
bucket has a positive total, the test is equivalent to the squared form
`81 * (sumSq/n) ≤ 400 * count²` (0.45 = 9/20), which is decidable over `ℚ`.
The equivalence with the square-root form is proved in `c2` below. -/
def activeB (l : List Item) (it : Item) : Bool :=
  decide (81 * ((sumSq l : ℚ) / (l.length : ℚ)) ≤ 400 * (it.count : ℚ) ^ 2)

/-- Python's `min(l, key=lambda x: int(x['time']))`: first element with the
least time label. -/
def minByTime : List Item → Option Item
  | [] => none
  | x :: xs => some (xs.foldl (fun a b => if b.time < a.time then b else a) x)

/-- Python's `max(l, key=lambda x: int(x['time']))`: first element with the
greatest time label. -/
def maxByTime : List Item → Option Item
  | [] => none
  | x :: xs => some (xs.foldl (fun a b => if a.time < b.time then b else a) x)

/-- `Code996Analyzer.calculate_work_time_range` (src lines 286–310); the
identical re-implementation `MultiRepoAnalyzer.calculate_work_time_range`
(lines 692–712) is the same function. -/
def calculate_work_time_range (hourData : List Item) : Option Item × Option Item :=
  if hourData = [] then (none, none)
  else if totalCount hourData = 0 then (none, none)
  else
    let workHours := hourData.filter (fun it => activeB hourData it)
    let openingData := workHours.filter (fun it => decide (8 ≤ it.time ∧ it.time ≤ 12))
    let closingData := workHours.filter (fun it => decide (17 ≤ it.time ∧ it.time ≤ 23))
    (minByTime openingData, maxByTime closingData)

/-- The `if not opening_time or not hour_data` fallback branch of
`calculate_working_time`: fixed default core window `[9,18]`. -/
def defaultSplit (hourData : List Item) : List PLItem × ℕ × ℕ :=
  let workingTime := hourData.filter (fun it => decide (9 ≤ it.time ∧ it.time ≤ 18))
  let workingElseTime := hourData.filter (fun it => decide (it ∉ workingTime))
  let workingTimeCount := totalCount workingTime
  let workingElseTimeCount := totalCount workingElseTime
  ([⟨.work, workingTimeCount⟩, ⟨.overtime, workingElseTimeCount⟩],
    workingTimeCount, workingElseTimeCount)

/-- `Code996Analyzer.calculate_working_time` (src lines 312–344); identical to
`MultiRepoAnalyzer.calculate_working_time` (lines 714–743).  The complement is
computed, as in the source, by membership in the filtered core list
(`item not in working_time`). -/
def calculate_working_time (hourData : List Item) (openingTime : Option Item) :
    List PLItem × ℕ × ℕ :=
  match openingTime with
  | none => defaultSplit hourData
  | some o =>
    if hourData = [] then defaultSplit hourData
    else
      let openingHour := o.time
      let workingTime :=
        hourData.filter (fun it => decide (openingHour ≤ it.time ∧ it.time ≤ openingHour + 9))
      let workingElseTime := hourData.filter (fun it => decide (it ∉ workingTime))
      let workingTimeCount := totalCount workingTime
      let workingElseTimeCount := totalCount workingElseTime
      ([⟨.work, workingTimeCount⟩, ⟨.overtime, workingElseTimeCount⟩],
        workingTimeCount, workingElseTimeCount)

/-- `Code996Analyzer.calculate_week_type` (src lines 346–376); identical to
`MultiRepoAnalyzer.calculate_week_type` (lines 745–772).  `week_data` always
has 7 entries when produced by `get_week_stats`; `take`/`drop` model the
index ranges `range(5)` and `range(5, 7)`. -/
def calculate_week_type (weekData : List Item) : ℕ × List PLItem :=
  let total := totalCount weekData
  if total = 0 then (5, [])
  else
    let workdayCount := totalCount (weekData.take 5)
    let weekendCount := totalCount ((weekData.drop 5).take 2)
    let workdayRatio : ℚ := ((workdayCount : ℚ) / (total : ℚ)) * 100
    let workDays : ℕ :=
      if 90 ≤ workdayRatio then 5
      else if 85 ≤ workdayRatio then 6
      else if 79 ≤ workdayRatio then 6
      else if 72 ≤ workdayRatio then 7
      else 7
    (workDays, [⟨.workday, workdayCount⟩, ⟨.weekend, weekendCount⟩])

/-- The 996-index computation shared verbatim (except for the sample-size
threshold: 50 single-source, 30 aggregate) by
`Code996Analyzer.calculate_996_index` (src lines 378–412) and
`MultiRepoAnalyzer.calculate_996_index` (lines 774–802).
Returns `(index_996, overtime_ratio, is_standard)`. -/
def calculate996IndexWith (thr : ℕ) (workHourPl workWeekPl : List PLItem)
    (hourData : List Item) : ℤ × ℤ × Bool :=
  match workHourPl, workWeekPl with
  | yI :: xI :: _, mI :: nI :: _ =>
    let y := yI.count
    let x := xI.count
    let m := mI.count
    let n := nI.count
    let total := y + x
    if total = 0 then (0, 0, false)
    else
      let overtimeAmendCount : ℤ :=
        if 0 < m + n then pyRound ((x : ℚ) + ((y * n : ℕ) : ℚ) / ((m + n : ℕ) : ℚ))
        else (x : ℤ)
      let overtimeRatio0 : ℤ := ⌈((overtimeAmendCount : ℚ) / ((total : ℕ) : ℚ)) * 100⌉
      let overtimeRatio : ℤ :=
        if overtimeRatio0 = 0 ∧ hourData.length < 9 then
          let averageCommit : ℚ :=
            if 0 < hourData.length then ((total : ℕ) : ℚ) / (hourData.length : ℚ) else 0
          let mockTotalCount : ℚ := averageCommit * 9
          if 0 < mockTotalCount then ⌈(((total : ℕ) : ℚ) / mockTotalCount) * 100⌉ - 100
          else overtimeRatio0
        else overtimeRatio0
      (overtimeRatio * 3, overtimeRatio, decide (overtimeRatio * 3 < 200 ∧ thr < total))
  | _, _ => (0, 0, false)

/-- `Code996Analyzer.calculate_996_index`: sample-size threshold 50. -/
def Code996Analyzer.calculate_996_index (workHourPl workWeekPl : List PLItem)
    (hourData : List Item) : ℤ × ℤ × Bool :=
  calculate996IndexWith 50 workHourPl workWeekPl hourData

/-- `MultiRepoAnalyzer.calculate_996_index`: sample-size threshold 30. -/
def MultiRepoAnalyzer.calculate_996_index (workHourPl workWeekPl : List PLItem)
    (hourData : List Item) : ℤ × ℤ × Bool :=
  calculate996IndexWith 30 workHourPl workWeekPl hourData

/-- The `'closing_hour': closing_hour % 12 if closing_hour else None` field of
the result records (src lines 483 and 673).  `closing_hour` is falsy exactly
when it is `None` or `0`. -/
def storedClosing (c : Option Item) : Option ℕ :=
  match c with
  | none => none
  | some it => if it.time ≠ 0 then some (it.time % 12) else none

/-- The fields of the result record shared by the single-source and aggregate
paths (`Code996Analyzer.analyze`, src lines 435–491, and
`MultiRepoAnalyzer.analyze`, lines 621–688). -/
structure AnalysisRec where
  total : ℕ
  hourData : List Item
  weekData : List Item
  workHourPl : List PLItem
  workWeekPl : List PLItem
  openingHour : Option ℕ
  closingHour : Option ℕ
  workDays : ℕ
  index996 : ℤ
  overtimeRatio : ℤ
  isStandard : Bool
deriving DecidableEq, Repr

/-- The common result-building pipeline over an hour bucket and a week bucket
(src lines 456–489 for the single source with `thr = 50`, lines 636–688 for
the aggregate with `thr = 30`). -/
def mkAnalysis (thr : ℕ) (hourData weekData : List Item) : AnalysisRec :=
  let total := totalCount hourData
  let wr := calculate_work_time_range hourData
  let whp := (calculate_working_time hourData wr.1).1
  let wt := calculate_week_type weekData
  let res := calculate996IndexWith thr whp wt.2 hourData
  { total := total
    hourData := hourData
    weekData := weekData
    workHourPl := whp
    workWeekPl := wt.2
    openingHour := wr.1.map Item.time
    closingHour := storedClosing wr.2
    workDays := wt.1
    index996 := res.1
    overtimeRatio := res.2.1
    isStandard := res.2.2 }

/-- Process-fatal exits of a single-source analysis (`sys.exit(1)` /
`SystemExit`): a failed git invocation (src lines 232–238), or zero commits
(src lines 450–452).  `allFailed` is the aggregate-level exit at src
lines 611–613. -/
inductive RunErr
  | gitFailed | noData | allFailed
deriving DecidableEq, Repr

/-- `Code996Analyzer.analyze` on a source whose git retrieval succeeded:
fatal "no data" exit if the total commit count is 0, otherwise the full
single-source result (threshold 50). -/
def analyzeSingle (events : List GitEvent) : Except RunErr AnalysisRec :=
  let hourData := get_hour_stats events
  let weekData := get_week_stats events
  if totalCount hourData = 0 then .error .noData
  else .ok (mkAnalysis 50 hourData weekData)

/-- What one source hands the aggregation loop: a retrieved event stream, a
failed git command (→ `sys.exit` inside `run_git_command`), or some other
`Exception` raised while analyzing it. -/
inductive SourceOutcome
  | retrieved (events : List GitEvent)
  | gitError
  | raised
deriving DecidableEq, Repr

/-- Outcome of one iteration of the `for` loop of `MultiRepoAnalyzer.analyze`
(src lines 550–608): `fatal` is an uncaught `SystemExit` that terminates the
whole process, `caught` an exception absorbed by `except Exception` and
recorded in `failed_repos`, `ok` a successful per-source result. -/
inductive StepResult
  | fatal (e : RunErr)
  | caught
  | ok (r : AnalysisRec)

/-- One iteration of the aggregation loop. -/
def runSingle : SourceOutcome → StepResult
  | .gitError => .fatal .gitFailed
  | .raised => .caught
  | .retrieved events =>
    match analyzeSingle events with
    | .error e => .fatal e
    | .ok r => .ok r

/-- The aggregation loop: collects successful per-source results and the
count of caught failures; an uncaught `SystemExit` aborts everything. -/
def collectSources : List SourceOutcome → Except RunErr (List AnalysisRec × ℕ)
  | [] => .ok ([], 0)
  | s :: rest =>
    match runSingle s with
    | .fatal e => .error e
    | .caught => do
      let (rs, f) ← collectSources rest
      .ok (rs, f + 1)
    | .ok r => do
      let (rs, f) ← collectSources rest
      .ok (r :: rs, f)

/-- `sum(it.count for it in l if it.time == k)`: the merged-dictionary count
for key `k`. -/
def countIn (l : List Item) (k : ℕ) : ℕ :=
  ((l.filter (fun it => decide (it.time = k))).map Item.count).sum

/-- The distinct keys of a bucket list, sorted increasingly. -/
def bucketKeys (l : List Item) : List ℕ := sortedKeys (l.map Item.time)

/-- Rebuild a bucket list from a merged dictionary: one entry per distinct
key, keys sorted increasingly (src lines 623–626). -/
def normBucket (l : List Item) : List Item :=
  (bucketKeys l).map (fun k => ⟨k, countIn l k⟩)

/-- The key-wise bucket merge of `MultiRepoAnalyzer.analyze`
(src lines 592–598 together with 623–626): add counts into a dictionary keyed
by time label, then list the keys in increasing order. -/
def mergeBuckets (a b : List Item) : List Item := normBucket (a ++ b)

/-- The merged weekday bucket (src lines 596–598 with 628–633): fixed label
order Monday..Sunday, missing labels zero filled. -/
def mergedWeekOf (l : List Item) : List Item :=
  [1, 2, 3, 4, 5, 6, 7].map (fun d => ⟨d, countIn l d⟩)

/-- The aggregate result of `MultiRepoAnalyzer.analyze`. -/
structure AggRec where
  record : AnalysisRec
  repoCount : ℕ
  failedCount : ℕ

/-- `MultiRepoAnalyzer.analyze` (src lines 531–690): run each source through
the single-source pipeline, abort on an uncaught `SystemExit`, record caught
exceptions as failures, exit fatally if no source succeeded, otherwise merge
the buckets and re-run the pipeline once (threshold 30) over the merge. -/
def multiAnalyze (sources : List SourceOutcome) : Except RunErr AggRec := do
  let (rs, f) ← collectSources sources
  if rs.isEmpty then .error .allFailed
  else
    let mergedHour := normBucket (rs.map AnalysisRec.hourData).flatten
    let mergedWeek := mergedWeekOf (rs.map AnalysisRec.weekData).flatten
    .ok ⟨mkAnalysis 30 mergedHour mergedWeek, rs.length, f⟩

/-- `Except.ok`-test used to state that a source would have analyzed fine on
its own. -/
def isOkResult : Except RunErr AnalysisRec → Bool
  | .ok _ => true
  | .error _ => false

/-- Scenario C's source B: 60 events. -/
def evB : List GitEvent :=
  List.replicate 30 ⟨10, 1⟩ ++ List.replicate 30 ⟨15, 3⟩

/-- Scenario D's nonempty source: 40 events. -/
def ev40 : List GitEvent := List.replicate 40 ⟨10, 2⟩

/-- Modelled from the spec: the amended overtime count
`x' = round(x + y*n/(m+n))` if `m+n>0`, else `x' = x`. -/
def specAmendedOvertime (y x m n : ℕ) : ℤ :=
  if 0 < m + n then pyRound ((x : ℚ) + (y : ℚ) * (n : ℚ) / ((m : ℚ) + (n : ℚ)))
  else (x : ℤ)

/-- Modelled from the spec: the first-pass overtime ratio
`ceil(x' / (x+y) * 100)` (before any small-sample correction). -/
def specFirstRatio (y x m n : ℕ) : ℤ :=
  ⌈((specAmendedOvertime y x m n : ℚ) / ((x : ℚ) + (y : ℚ))) * 100⌉

/-- The spec's "active hour" notion, in its original square-root form:
`count / rms ≥ 0.45` with `rms = sqrt(sum(count_i²) / n)`. -/
def ActiveAt (l : List Item) (it : Item) : Prop :=
  (9 / 20 : ℝ) ≤ (it.count : ℝ) / Real.sqrt ((sumSq l : ℝ) / (l.length : ℝ))

/-- Spec of the opening side of the work window: absent iff no active hour
lies in `[8,12]`; otherwise an active in-range entry of least hour. -/
def OpeningSpec (l : List Item) (o : Option Item) : Prop :=
  (o = none ↔ ∀ it ∈ l, ¬(ActiveAt l it ∧ 8 ≤ it.time ∧ it.time ≤ 12)) ∧
  ∀ it, o = some it →
    it ∈ l ∧ ActiveAt l it ∧ 8 ≤ it.time ∧ it.time ≤ 12 ∧
      ∀ u ∈ l, ActiveAt l u → 8 ≤ u.time → u.time ≤ 12 → it.time ≤ u.time

/-- Spec of the closing side of the work window: absent iff no active hour
lies in `[17,23]`; otherwise an active in-range entry of greatest hour. -/
def ClosingSpec (l : List Item) (c : Option Item) : Prop :=
  (c = none ↔ ∀ it ∈ l, ¬(ActiveAt l it ∧ 17 ≤ it.time ∧ it.time ≤ 23)) ∧
  ∀ it, c = some it →
    it ∈ l ∧ ActiveAt l it ∧ 17 ≤ it.time ∧ it.time ≤ 23 ∧
      ∀ u ∈ l, ActiveAt l u → 17 ≤ u.time → u.time ≤ 23 → u.time ≤ it.time

lemma specAmended_eq (y x m n : ℕ) :
    (if 0 < m + n then pyRound ((x : ℚ) + ((y * n : ℕ) : ℚ) / ((m + n : ℕ) : ℚ)) else (x : ℤ))
      = specAmendedOvertime y x m n := by
  unfold specAmendedOvertime
  by_cases h : 0 < m + n
  · rw [if_pos h, if_pos h]
    congr 1
    push_cast
    ring
  · rw [if_neg h, if_neg h]

/-- Closed form of `calculate996IndexWith` on nondegenerate input. -/
lemma calc996_closed (thr : ℕ) (l1 l2 l3 l4 : PLabel) (r1 r2 : List PLItem)
    (y x m n : ℕ) (hd : List Item) (hpos : 0 < y + x) :
    calculate996IndexWith thr (⟨l1, y⟩ :: ⟨l2, x⟩ :: r1) (⟨l3, m⟩ :: ⟨l4, n⟩ :: r2) hd =
      (let r0 := specFirstRatio y x m n
       let ratio : ℤ :=
         if r0 = 0 ∧ hd.length < 9 then
           if 0 < hd.length then
             ⌈(((x : ℚ) + (y : ℚ)) / ((((x : ℚ) + (y : ℚ)) / (hd.length : ℚ)) * 9)) * 100⌉ - 100
           else r0
         else r0
       (ratio * 3, ratio, decide (ratio * 3 < 200 ∧ thr < y + x))) := by
  have hne : ¬ (y + x = 0) := by omega
  have hcast : ((y + x : ℕ) : ℚ) = (x : ℚ) + (y : ℚ) := by push_cast; ring
  have hposq : (0 : ℚ) < (x : ℚ) + (y : ℚ) := by
    have : (0 : ℚ) < ((y + x : ℕ) : ℚ) := by exact_mod_cast hpos
    rwa [hcast] at this
  simp only [calculate996IndexWith, hne, if_false, specAmended_eq y x m n, hcast]
  simp only [specFirstRatio]
  by_cases hr : (⌈(specAmendedOvertime y x m n : ℚ) / ((x : ℚ) + (y : ℚ)) * 100⌉ = 0
      ∧ hd.length < 9)
  · rw [if_pos hr, if_pos hr]
    by_cases hl : 0 < hd.length
    · rw [if_pos hl, if_pos hl]
      have hlq : (0 : ℚ) < (hd.length : ℚ) := by exact_mod_cast hl
      have hmock : (0 : ℚ) < ((x : ℚ) + (y : ℚ)) / (hd.length : ℚ) * 9 := by positivity
      rw [if_pos hmock]
    · rw [if_neg hl, if_neg hl]
      have h0 : ¬ ((0 : ℚ) < 0 * 9) := by norm_num
      rw [if_neg h0]
  · rw [if_neg hr, if_neg hr]

/-- C1: for every core/overtime split `(y, x)` and workday/weekend split
`(m, n)` with `y + x > 0` and both splits of length ≥ 2,
`calculate_996_index` computes the amended overtime count
`x' = round(x + y*n/(m+n))` when `m+n > 0` (else `x' = x`), the first-pass
overtime ratio `⌈x'/(x+y)*100⌉` (returned unchanged whenever the
small-sample correction does not fire), the index `ratio * 3`, and
`reliable = (index < 200 ∧ x+y > threshold)` with threshold 50 for a single
source and 30 for an aggregate; degenerate inputs (a split shorter than 2,
or `y + x = 0`) give `(0, 0, false)`. -/
theorem c1_calculate_996_index :
    (∀ (thr : ℕ) (whp wwp : List PLItem) (hd : List Item),
        whp.length < 2 ∨ wwp.length < 2 →
        calculate996IndexWith thr whp wwp hd = (0, 0, false)) ∧
    (∀ (thr : ℕ) (l1 l2 l3 l4 : PLabel) (r1 r2 : List PLItem) (m n : ℕ) (hd : List Item),
        calculate996IndexWith thr (⟨l1, 0⟩ :: ⟨l2, 0⟩ :: r1) (⟨l3, m⟩ :: ⟨l4, n⟩ :: r2) hd
          = (0, 0, false)) ∧
    (∀ (thr : ℕ) (l1 l2 l3 l4 : PLabel) (r1 r2 : List PLItem) (y x m n : ℕ)
        (hd : List Item), 0 < y + x →
        let out := calculate996IndexWith thr (⟨l1, y⟩ :: ⟨l2, x⟩ :: r1)
          (⟨l3, m⟩ :: ⟨l4, n⟩ :: r2) hd
        out.1 = out.2.1 * 3 ∧
        out.2.2 = decide (out.1 < 200 ∧ thr < x + y) ∧
        (specFirstRatio y x m n ≠ 0 ∨ 9 ≤ hd.length →
          out.2.1 = specFirstRatio y x m n)) ∧
    (∀ whp wwp hd, Code996Analyzer.calculate_996_index whp wwp hd
        = calculate996IndexWith 50 whp wwp hd) ∧
    (∀ whp wwp hd, MultiRepoAnalyzer.calculate_996_index whp wwp hd
        = calculate996IndexWith 30 whp wwp hd) := by
  refine ⟨?_, ?_, ?_, fun _ _ _ => rfl, fun _ _ _ => rfl⟩
  · intro thr whp wwp hd h
    match whp, wwp with
    | [], _ => rfl
    | [_], _ => rfl
    | _ :: _ :: _, [] => rfl
    | _ :: _ :: _, [_] => rfl
    | a :: b :: t, c :: d :: t' => simp at h; omega
  · intro thr l1 l2 l3 l4 r1 r2 m n hd
    rfl
  · intro thr l1 l2 l3 l4 r1 r2 y x m n hd hpos
    rw [calc996_closed thr l1 l2 l3 l4 r1 r2 y x m n hd hpos]
    refine ⟨rfl, ?_, ?_⟩
    · have : thr < y + x ↔ thr < x + y := by omega
      simp only [this]
    · intro h
      have hcond : ¬ (specFirstRatio y x m n = 0 ∧ hd.length < 9) := by
        rcases h with h | h
        · exact fun hc => h hc.1
        · exact fun hc => by omega
      simp only [hcond, if_false]

theorem c1_witness :
    (([] : List PLItem).length < 2 ∨ ([⟨.workday, 1⟩] : List PLItem).length < 2) ∧
    calculate996IndexWith 50 [] [⟨.workday, 1⟩] [] = (0, 0, false) ∧
    (0 < 30 + 30) ∧
    (let out := calculate996IndexWith 50
        (⟨.work, 30⟩ :: ⟨.overtime, 30⟩ :: ([] : List PLItem))
        (⟨.workday, 50⟩ :: ⟨.weekend, 10⟩ :: ([] : List PLItem))
        (List.replicate 9 ⟨9, 1⟩)
     out.1 = out.2.1 * 3 ∧
     out.2.2 = decide (out.1 < 200 ∧ 50 < 30 + 30) ∧
     (specFirstRatio 30 30 50 10 ≠ 0 ∨ 9 ≤ (List.replicate 9 (⟨9, 1⟩ : Item)).length →
       out.2.1 = specFirstRatio 30 30 50 10)) :=
  ⟨by decide,
    c1_calculate_996_index.1 50 [] [⟨.workday, 1⟩] [] (by decide),
    by decide,
    c1_calculate_996_index.2.2.1 50 .work .overtime .workday .weekend [] []
      30 30 50 10 (List.replicate 9 ⟨9, 1⟩) (by decide)⟩

/-- C3: whenever the first-pass overtime ratio is 0 and the number of
distinct observed hours is positive and less than 9, the ratio is recomputed
as `⌈(x+y)/mockTotal * 100⌉ - 100` with `mockTotal = ((x+y)/distinctHours)*9`,
and the resulting (possibly negative) ratio, together with the index
`ratio * 3` derived from it, is returned as-is — never clamped to zero. -/
theorem c3_small_sample_correction :
    ∀ (thr : ℕ) (l1 l2 l3 l4 : PLabel) (r1 r2 : List PLItem) (y x m n : ℕ)
      (hd : List Item), 0 < y + x → specFirstRatio y x m n = 0 →
      0 < hd.length → hd.length < 9 →
      let out := calculate996IndexWith thr (⟨l1, y⟩ :: ⟨l2, x⟩ :: r1)
        (⟨l3, m⟩ :: ⟨l4, n⟩ :: r2) hd
      out.2.1 =
        ⌈(((x : ℚ) + (y : ℚ)) / ((((x : ℚ) + (y : ℚ)) / (hd.length : ℚ)) * 9)) * 100⌉
          - 100 ∧
      out.1 = out.2.1 * 3 := by
  intro thr l1 l2 l3 l4 r1 r2 y x m n hd hpos hr0 hl hl9
  rw [calc996_closed thr l1 l2 l3 l4 r1 r2 y x m n hd hpos]
  simp only [hr0, hl, hl9, and_self, if_true, if_pos]

lemma specFirstRatio_zero (y m : ℕ) : specFirstRatio y 0 m 0 = 0 := by
  have hA : specAmendedOvertime y 0 m 0 = 0 := by
    unfold specAmendedOvertime
    by_cases h : 0 < m + 0
    · rw [if_pos h]
      norm_num [pyRound]
    · rw [if_neg h]
      norm_num
  unfold specFirstRatio
  rw [hA]
  norm_num

theorem c3_witness :
    (0 < 10 + 0 ∧ specFirstRatio 10 0 10 0 = 0 ∧
      0 < ([⟨9, 2⟩, ⟨10, 2⟩, ⟨11, 2⟩, ⟨12, 2⟩, ⟨13, 2⟩] : List Item).length ∧
      ([⟨9, 2⟩, ⟨10, 2⟩, ⟨11, 2⟩, ⟨12, 2⟩, ⟨13, 2⟩] : List Item).length < 9) ∧
    (let out := calculate996IndexWith 50
        (⟨.work, 10⟩ :: ⟨.overtime, 0⟩ :: ([] : List PLItem))
        (⟨.workday, 10⟩ :: ⟨.weekend, 0⟩ :: ([] : List PLItem))
        ([⟨9, 2⟩, ⟨10, 2⟩, ⟨11, 2⟩, ⟨12, 2⟩, ⟨13, 2⟩] : List Item)
     out.2.1 =
        ⌈(((0 : ℕ) : ℚ) + ((10 : ℕ) : ℚ)) /
            ((((((0 : ℕ) : ℚ)) + ((10 : ℕ) : ℚ)) /
              ((([⟨9, 2⟩, ⟨10, 2⟩, ⟨11, 2⟩, ⟨12, 2⟩, ⟨13, 2⟩] : List Item).length : ℚ))
              * 9)) * 100⌉ - 100 ∧
     out.1 = out.2.1 * 3) :=
  ⟨⟨by decide, specFirstRatio_zero 10 10, by decide, by decide⟩,
    c3_small_sample_correction 50 .work .overtime .workday .weekend [] [] 10 0 10 0
      [⟨9, 2⟩, ⟨10, 2⟩, ⟨11, 2⟩, ⟨12, 2⟩, ⟨13, 2⟩]
      (by decide) (specFirstRatio_zero 10 10) (by decide) (by decide)⟩

/-- C10: when the small-sample correction fires (first-pass ratio 0, distinct
hour count `d` with `0 < d < 9`, positive total), the recomputed ratio equals
`⌈100*d/9⌉ - 100`, a strictly negative value depending only on the number of
distinct observed hours, not on the individual commit counts. -/
theorem c10_correction_value :
    ∀ (thr : ℕ) (l1 l2 l3 l4 : PLabel) (r1 r2 : List PLItem) (y x m n : ℕ)
      (hd : List Item), 0 < y + x → specFirstRatio y x m n = 0 →
      0 < hd.length → hd.length < 9 →
      let out := calculate996IndexWith thr (⟨l1, y⟩ :: ⟨l2, x⟩ :: r1)
        (⟨l3, m⟩ :: ⟨l4, n⟩ :: r2) hd
      out.2.1 = ⌈((100 : ℚ) * (hd.length : ℚ)) / 9⌉ - 100 ∧ out.2.1 < 0 := by
  intro thr l1 l2 l3 l4 r1 r2 y x m n hd hpos hr0 hl hl9
  have h3 := c3_small_sample_correction thr l1 l2 l3 l4 r1 r2 y x m n hd hpos hr0 hl hl9
  have hxy : ((x : ℚ) + (y : ℚ)) ≠ 0 := by
    have : (0 : ℚ) < (x : ℚ) + (y : ℚ) := by
      have : ((0 : ℕ) : ℚ) < ((x + y : ℕ) : ℚ) := by exact_mod_cast (by omega : 0 < x + y)
      push_cast at this
      linarith
    exact ne_of_gt this
  have hL : (hd.length : ℚ) ≠ 0 := by
    exact_mod_cast Nat.pos_iff_ne_zero.mp hl
  have harg : (((x : ℚ) + (y : ℚ)) /
        ((((x : ℚ) + (y : ℚ)) / (hd.length : ℚ)) * 9)) * 100
      = (100 : ℚ) * (hd.length : ℚ) / 9 := by
    field_simp
    ring
  have hceil : (⌈((100 : ℚ) * (hd.length : ℚ)) / 9⌉ : ℤ) ≤ 99 := by
    rw [Int.ceil_le]
    rw [div_le_iff₀ (by norm_num : (0 : ℚ) < 9)]
    have hL8 : (hd.length : ℚ) ≤ 8 := by exact_mod_cast (by omega : hd.length ≤ 8)
    push_cast
    nlinarith
  refine ⟨?_, ?_⟩
  · rw [h3.1, harg]
  · rw [h3.1, harg]
    omega

theorem c10_witness :
    (0 < 7 + 0 ∧ specFirstRatio 7 0 7 0 = 0 ∧
      0 < ([⟨9, 1⟩, ⟨10, 3⟩, ⟨11, 3⟩] : List Item).length ∧
      ([⟨9, 1⟩, ⟨10, 3⟩, ⟨11, 3⟩] : List Item).length < 9) ∧
    (let out := calculate996IndexWith 30
        (⟨.work, 7⟩ :: ⟨.overtime, 0⟩ :: ([] : List PLItem))
        (⟨.workday, 7⟩ :: ⟨.weekend, 0⟩ :: ([] : List PLItem))
        ([⟨9, 1⟩, ⟨10, 3⟩, ⟨11, 3⟩] : List Item)
     out.2.1 =
        ⌈((100 : ℚ) * ((([⟨9, 1⟩, ⟨10, 3⟩, ⟨11, 3⟩] : List Item).length : ℚ))) / 9⌉
          - 100 ∧
     out.2.1 < 0) :=
  ⟨⟨by decide, specFirstRatio_zero 7 7, by decide, by decide⟩,
    c10_correction_value 30 .work .overtime .workday .weekend [] [] 7 0 7 0
      [⟨9, 1⟩, ⟨10, 3⟩, ⟨11, 3⟩]
      (by decide) (specFirstRatio_zero 7 7) (by decide) (by decide)⟩

lemma sum_ite_eq_one {α : Type} [DecidableEq α] (a : α) (ks : List α)
    (hnd : ks.Nodup) (ha : a ∈ ks) :
    (ks.map (fun k => if a = k then (1 : ℕ) else 0)).sum = 1 := by
  induction ks with
  | nil => cases ha
  | cons k ks ih =>
    rcases List.mem_cons.mp ha with h | h
    · subst h
      simp only [List.map_cons, List.sum_cons, if_pos rfl]
      have hnotin : a ∉ ks := (List.nodup_cons.mp hnd).1
      have hz : (ks.map (fun k => if a = k then (1 : ℕ) else 0)).sum = 0 := by
        apply List.sum_eq_zero
        intro v hv
        obtain ⟨k', hk', rfl⟩ := List.mem_map.mp hv
        rw [if_neg]
        rintro rfl
        exact hnotin hk'
      rw [hz]
      simp
    · have hne : a ≠ k := by
        rintro rfl
        exact (List.nodup_cons.mp hnd).1 h
      simp only [List.map_cons, List.sum_cons, if_neg hne, Nat.zero_add]
      exact ih (List.nodup_cons.mp hnd).2 h

/-- Partitioning a population over a duplicate-free, covering key list:
the per-key filter lengths sum to the population size. -/
lemma sum_filter_length_keys {α β : Type} [DecidableEq α] (g : β → α) (ks : List α)
    (hnd : ks.Nodup) :
    ∀ evs : List β, (∀ e ∈ evs, g e ∈ ks) →
      (ks.map (fun k => (evs.filter (fun e => decide (g e = k))).length)).sum
        = evs.length := by
  intro evs
  induction evs with
  | nil => simp
  | cons e evs ih =>
    intro hcov
    have hge : g e ∈ ks := hcov e (List.mem_cons_self e evs)
    have hcov' : ∀ e' ∈ evs, g e' ∈ ks := fun e' he' => hcov e' (List.mem_cons_of_mem e he')
    have hmap : ks.map (fun k => ((e :: evs).filter (fun e' => decide (g e' = k))).length)
        = ks.map (fun k => (if g e = k then 1 else 0)
            + (evs.filter (fun e' => decide (g e' = k))).length) := by
      apply List.map_congr_left
      intro k _
      by_cases h : g e = k <;> simp [List.filter_cons, h, Nat.add_comm]
    rw [hmap, List.sum_map_add, sum_ite_eq_one (g e) ks hnd hge, ih hcov']
    simp [Nat.add_comm]

/-- C5: for every event stream the hour bucket's counts sum to the total
event count, and the weekday bucket always has exactly 7 entries
(Monday..Sunday, zero filled) whose counts also sum to the same total,
however sparse the input is.  (Weekdays coming from git's `%u` always lie
in 1..7, stated as the hypothesis.) -/
theorem c5_bucket_sums (events : List GitEvent)
    (hwd : ∀ e ∈ events, 1 ≤ e.weekday ∧ e.weekday ≤ 7) :
    totalCount (get_hour_stats events) = events.length ∧
    (get_week_stats events).length = 7 ∧
    totalCount (get_week_stats events) = events.length := by
  refine ⟨?_, rfl, ?_⟩
  · have hnd : (sortedKeys (events.map GitEvent.hour)).Nodup :=
      (List.perm_insertionSort _ _).nodup_iff.mpr (List.nodup_dedup _)
    have hcov : ∀ e ∈ events, e.hour ∈ sortedKeys (events.map GitEvent.hour) := by
      intro e he
      unfold sortedKeys
      rw [(List.perm_insertionSort _ _).mem_iff, List.mem_dedup]
      exact List.mem_map_of_mem GitEvent.hour he
    have := sum_filter_length_keys GitEvent.hour
      (sortedKeys (events.map GitEvent.hour)) hnd events hcov
    simpa [totalCount, get_hour_stats, List.map_map, Function.comp] using this
  · have hnd : ([1, 2, 3, 4, 5, 6, 7] : List ℕ).Nodup := by decide
    have hcov : ∀ e ∈ events, e.weekday ∈ ([1, 2, 3, 4, 5, 6, 7] : List ℕ) := by
      intro e he
      have := hwd e he
      simp only [List.mem_cons, List.not_mem_nil, or_false]
      omega
    have := sum_filter_length_keys GitEvent.weekday [1, 2, 3, 4, 5, 6, 7] hnd events hcov
    simpa [totalCount, get_week_stats, List.map_map, Function.comp] using this

theorem c5_witness :
    (∀ e ∈ ([⟨10, 1⟩, ⟨10, 6⟩, ⟨22, 7⟩] : List GitEvent),
        1 ≤ e.weekday ∧ e.weekday ≤ 7) ∧
    (totalCount (get_hour_stats [⟨10, 1⟩, ⟨10, 6⟩, ⟨22, 7⟩])
        = ([⟨10, 1⟩, ⟨10, 6⟩, ⟨22, 7⟩] : List GitEvent).length ∧
      (get_week_stats [⟨10, 1⟩, ⟨10, 6⟩, ⟨22, 7⟩]).length = 7 ∧
      totalCount (get_week_stats [⟨10, 1⟩, ⟨10, 6⟩, ⟨22, 7⟩])
        = ([⟨10, 1⟩, ⟨10, 6⟩, ⟨22, 7⟩] : List GitEvent).length) :=
  ⟨by decide, c5_bucket_sums [⟨10, 1⟩, ⟨10, 6⟩, ⟨22, 7⟩] (by decide)⟩

/-- The source's complement-by-membership (`item not in working_time`) agrees
with the direct complement of the range predicate. -/
lemma filter_not_mem_filter (l : List Item) (p : Item → Bool) :
    l.filter (fun it => decide (it ∉ l.filter p)) = l.filter (fun it => !(p it)) := by
  apply List.filter_congr
  intro it hit
  by_cases h : p it = true
  · simp [List.mem_filter, hit, h]
  · simp [List.mem_filter, hit, h]

lemma totalCount_filter_add (l : List Item) (p : Item → Bool) :
    totalCount (l.filter p) + totalCount (l.filter (fun it => !(p it))) = totalCount l := by
  induction l with
  | nil => rfl
  | cons a l ih =>
    by_cases h : p a = true <;>
      simp [totalCount, List.filter_cons, h] at * <;> omega

/-- C4: with a detected opening hour `h`, the workload classifier counts as
core exactly the events whose hour lies in `[h, h+9]` and everything else as
overtime; with no detected opening it uses the fixed default core window
`[9,18]`; in both cases `core + overtime` equals the bucket's total count,
and the returned split is the two-entry `{core, overtime}` list. -/
theorem c4_working_time_split (hd : List Item)
    (hnd : (hd.map Item.time).Nodup) :
    (∀ op : Item,
      (calculate_working_time hd (some op)).1
          = [⟨.work, (calculate_working_time hd (some op)).2.1⟩,
             ⟨.overtime, (calculate_working_time hd (some op)).2.2⟩] ∧
      (calculate_working_time hd (some op)).2.1
          = totalCount (hd.filter
              (fun it => decide (op.time ≤ it.time ∧ it.time ≤ op.time + 9))) ∧
      (calculate_working_time hd (some op)).2.2
          = totalCount (hd.filter
              (fun it => !(decide (op.time ≤ it.time ∧ it.time ≤ op.time + 9)))) ∧
      (calculate_working_time hd (some op)).2.1 + (calculate_working_time hd (some op)).2.2
          = totalCount hd) ∧
    ((calculate_working_time hd none).1
        = [⟨.work, (calculate_working_time hd none).2.1⟩,
           ⟨.overtime, (calculate_working_time hd none).2.2⟩] ∧
      (calculate_working_time hd none).2.1
          = totalCount (hd.filter (fun it => decide (9 ≤ it.time ∧ it.time ≤ 18))) ∧
      (calculate_working_time hd none).2.2
          = totalCount (hd.filter (fun it => !(decide (9 ≤ it.time ∧ it.time ≤ 18)))) ∧
      (calculate_working_time hd none).2.1 + (calculate_working_time hd none).2.2
          = totalCount hd) := by
  constructor
  · intro op
    by_cases hhd : hd = []
    · subst hhd
      exact ⟨rfl, rfl, rfl, rfl⟩
    · have hr : calculate_working_time hd (some op)
          = ([⟨.work, totalCount (hd.filter
                (fun it => decide (op.time ≤ it.time ∧ it.time ≤ op.time + 9)))⟩,
              ⟨.overtime, totalCount (hd.filter (fun it => decide (it ∉ hd.filter
                (fun u => decide (op.time ≤ u.time ∧ u.time ≤ op.time + 9)))))⟩],
             totalCount (hd.filter
               (fun it => decide (op.time ≤ it.time ∧ it.time ≤ op.time + 9))),
             totalCount (hd.filter (fun it => decide (it ∉ hd.filter
               (fun u => decide (op.time ≤ u.time ∧ u.time ≤ op.time + 9)))))) := by
        simp only [calculate_working_time]
        rw [if_neg hhd]
      rw [hr]
      refine ⟨rfl, rfl, ?_, ?_⟩
      · rw [filter_not_mem_filter]
      · rw [filter_not_mem_filter]
        exact totalCount_filter_add hd _
  · have hr : calculate_working_time hd none
        = ([⟨.work, totalCount (hd.filter
              (fun it => decide (9 ≤ it.time ∧ it.time ≤ 18)))⟩,
            ⟨.overtime, totalCount (hd.filter (fun it => decide (it ∉ hd.filter
              (fun u => decide (9 ≤ u.time ∧ u.time ≤ 18)))))⟩],
           totalCount (hd.filter (fun it => decide (9 ≤ it.time ∧ it.time ≤ 18))),
           totalCount (hd.filter (fun it => decide (it ∉ hd.filter
             (fun u => decide (9 ≤ u.time ∧ u.time ≤ 18)))))) := rfl
    rw [hr]
    refine ⟨rfl, rfl, ?_, ?_⟩
    · rw [filter_not_mem_filter]
    · rw [filter_not_mem_filter]
      exact totalCount_filter_add hd _

theorem c4_witness :
    ((([⟨9, 5⟩, ⟨20, 3⟩] : List Item).map Item.time).Nodup) ∧
    ((calculate_working_time [⟨9, 5⟩, ⟨20, 3⟩] (some ⟨10, 5⟩)).1
        = [⟨.work, (calculate_working_time [⟨9, 5⟩, ⟨20, 3⟩] (some ⟨10, 5⟩)).2.1⟩,
           ⟨.overtime, (calculate_working_time [⟨9, 5⟩, ⟨20, 3⟩] (some ⟨10, 5⟩)).2.2⟩] ∧
      (calculate_working_time [⟨9, 5⟩, ⟨20, 3⟩] (some ⟨10, 5⟩)).2.1
          = totalCount (([⟨9, 5⟩, ⟨20, 3⟩] : List Item).filter
              (fun it => decide ((⟨10, 5⟩ : Item).time ≤ it.time ∧
                it.time ≤ (⟨10, 5⟩ : Item).time + 9))) ∧
      (calculate_working_time [⟨9, 5⟩, ⟨20, 3⟩] (some ⟨10, 5⟩)).2.2
          = totalCount (([⟨9, 5⟩, ⟨20, 3⟩] : List Item).filter
              (fun it => !(decide ((⟨10, 5⟩ : Item).time ≤ it.time ∧
                it.time ≤ (⟨10, 5⟩ : Item).time + 9)))) ∧
      (calculate_working_time [⟨9, 5⟩, ⟨20, 3⟩] (some ⟨10, 5⟩)).2.1
          + (calculate_working_time [⟨9, 5⟩, ⟨20, 3⟩] (some ⟨10, 5⟩)).2.2
          = totalCount [⟨9, 5⟩, ⟨20, 3⟩]) :=
  ⟨by decide, (c4_working_time_split [⟨9, 5⟩, ⟨20, 3⟩] (by decide)).1 ⟨10, 5⟩⟩

lemma minFold_spec (xs : List Item) :
    ∀ x : Item,
      (xs.foldl (fun a b => if b.time < a.time then b else a) x) ∈ x :: xs ∧
      (xs.foldl (fun a b => if b.time < a.time then b else a) x).time ≤ x.time ∧
      ∀ u ∈ xs, (xs.foldl (fun a b => if b.time < a.time then b else a) x).time ≤ u.time := by
  induction xs with
  | nil =>
    intro x
    exact ⟨List.mem_cons_self x [], le_refl _, fun u hu => absurd hu (List.not_mem_nil u)⟩
  | cons b xs ih =>
    intro x
    simp only [List.foldl_cons]
    by_cases hb : b.time < x.time
    · rw [if_pos hb]
      obtain ⟨hmem, hle, hall⟩ := ih b
      refine ⟨?_, by omega, ?_⟩
      · rcases List.mem_cons.mp hmem with h | h
        · rw [h]
          exact List.mem_cons_of_mem x (List.mem_cons_self b xs)
        · exact List.mem_cons_of_mem x (List.mem_cons_of_mem b h)
      · intro u hu
        rcases List.mem_cons.mp hu with h | h
        · rw [h]
          exact hle
        · exact hall u h
    · rw [if_neg hb]
      obtain ⟨hmem, hle, hall⟩ := ih x
      refine ⟨?_, hle, ?_⟩
      · rcases List.mem_cons.mp hmem with h | h
        · rw [h]
          exact List.mem_cons_self x (b :: xs)
        · exact List.mem_cons_of_mem x (List.mem_cons_of_mem b h)
      · intro u hu
        rcases List.mem_cons.mp hu with h | h
        · rw [h]
          omega
        · exact hall u h

lemma maxFold_spec (xs : List Item) :
    ∀ x : Item,
      (xs.foldl (fun a b => if a.time < b.time then b else a) x) ∈ x :: xs ∧
      x.time ≤ (xs.foldl (fun a b => if a.time < b.time then b else a) x).time ∧
      ∀ u ∈ xs, u.time ≤ (xs.foldl (fun a b => if a.time < b.time then b else a) x).time := by
  induction xs with
  | nil =>
    intro x
    exact ⟨List.mem_cons_self x [], le_refl _, fun u hu => absurd hu (List.not_mem_nil u)⟩
  | cons b xs ih =>
    intro x
    simp only [List.foldl_cons]
    by_cases hb : x.time < b.time
    · rw [if_pos hb]
      obtain ⟨hmem, hle, hall⟩ := ih b
      refine ⟨?_, by omega, ?_⟩
      · rcases List.mem_cons.mp hmem with h | h
        · rw [h]
          exact List.mem_cons_of_mem x (List.mem_cons_self b xs)
        · exact List.mem_cons_of_mem x (List.mem_cons_of_mem b h)
      · intro u hu
        rcases List.mem_cons.mp hu with h | h
        · rw [h]
          exact hle
        · exact hall u h
    · rw [if_neg hb]
      obtain ⟨hmem, hle, hall⟩ := ih x
      refine ⟨?_, hle, ?_⟩
      · rcases List.mem_cons.mp hmem with h | h
        · rw [h]
          exact List.mem_cons_self x (b :: xs)
        · exact List.mem_cons_of_mem x (List.mem_cons_of_mem b h)
      · intro u hu
        rcases List.mem_cons.mp hu with h | h
        · rw [h]
          omega
        · exact hall u h

lemma minByTime_none (l : List Item) : minByTime l = none ↔ l = [] := by
  cases l <;> simp [minByTime]

lemma maxByTime_none (l : List Item) : maxByTime l = none ↔ l = [] := by
  cases l <;> simp [maxByTime]

lemma minByTime_some (l : List Item) (it : Item) (h : minByTime l = some it) :
    it ∈ l ∧ ∀ u ∈ l, it.time ≤ u.time := by
  cases l with
  | nil => cases h
  | cons x xs =>
    simp only [minByTime, Option.some.injEq] at h
    obtain ⟨hmem, hle, hall⟩ := minFold_spec xs x
    rw [h] at hmem hle hall
    refine ⟨hmem, ?_⟩
    intro u hu
    rcases List.mem_cons.mp hu with h' | h'
    · rw [h']
      exact hle
    · exact hall u h'

lemma maxByTime_some (l : List Item) (it : Item) (h : maxByTime l = some it) :
    it ∈ l ∧ ∀ u ∈ l, u.time ≤ it.time := by
  cases l with
  | nil => cases h
  | cons x xs =>
    simp only [maxByTime, Option.some.injEq] at h
    obtain ⟨hmem, hle, hall⟩ := maxFold_spec xs x
    rw [h] at hmem hle hall
    refine ⟨hmem, ?_⟩
    intro u hu
    rcases List.mem_cons.mp hu with h' | h'
    · rw [h']
      exact hle
    · exact hall u h'

lemma sumSq_pos (l : List Item) (h : 0 < totalCount l) : 0 < sumSq l := by
  rcases Nat.eq_zero_or_pos (sumSq l) with h0 | hpos
  · exfalso
    have hall := List.sum_eq_zero_iff.mp h0
    have hz : totalCount l = 0 := by
      apply List.sum_eq_zero
      intro v hv
      obtain ⟨it, hit, rfl⟩ := List.mem_map.mp hv
      have hsq := hall (it.count * it.count) (List.mem_map_of_mem _ hit)
      exact mul_self_eq_zero.mp hsq
    omega
  · exact hpos

lemma sqrt_threshold_iff (q c : ℝ) (hq : 0 < q) (hc : 0 ≤ c) :
    (9 / 20 : ℝ) ≤ c / Real.sqrt q ↔ 81 * q ≤ 400 * c ^ 2 := by
  have hsqrt : 0 < Real.sqrt q := Real.sqrt_pos.mpr hq
  rw [le_div_iff₀ hsqrt]
  have h1 : (9 / 20 : ℝ) * Real.sqrt q = Real.sqrt (81 / 400 * q) := by
    rw [Real.sqrt_mul (by norm_num : (0 : ℝ) ≤ 81 / 400) q]
    congr 1
    rw [show (81 / 400 : ℝ) = (9 / 20) ^ 2 by norm_num,
      Real.sqrt_sq (by norm_num : (0 : ℝ) ≤ 9 / 20)]
  rw [h1, Real.sqrt_le_iff]
  constructor
  · rintro ⟨-, h⟩
    nlinarith
  · intro h
    exact ⟨hc, by nlinarith⟩

lemma active_iff (l : List Item) (htot : 0 < totalCount l) (it : Item) :
    activeB l it = true ↔ ActiveAt l it := by
  have hlen : 0 < l.length := by
    cases l with
    | nil => simp [totalCount] at htot
    | cons a t => simp
  have hsq : 0 < sumSq l := sumSq_pos l htot
  have hq : (0 : ℝ) < (sumSq l : ℝ) / (l.length : ℝ) := by
    apply div_pos
    · exact_mod_cast hsq
    · exact_mod_cast hlen
  have hc : (0 : ℝ) ≤ (it.count : ℝ) := by positivity
  unfold activeB ActiveAt
  rw [decide_eq_true_eq]
  rw [sqrt_threshold_iff _ _ hq hc]
  rw [show (81 * ((sumSq l : ℚ) / (l.length : ℚ)) ≤ 400 * (it.count : ℚ) ^ 2)
      ↔ ((81 * ((sumSq l : ℚ) / (l.length : ℚ)) : ℚ) : ℝ)
        ≤ ((400 * (it.count : ℚ) ^ 2 : ℚ) : ℝ) from (Rat.cast_le (K := ℝ)).symm]
  push_cast
  constructor <;> intro h <;> linarith

/-- C2: for every hour bucket with positive total count, the detector marks
an hour active iff `count / rms ≥ 0.45` with `rms = sqrt(Σ count² / n)` (`n`
the number of distinct observed hours), and returns as opening the earliest
active hour in [8,12] (absent iff no active hour lies in that range) and as
closing the latest active hour in [17,23] (absent iff none); a bucket with
total count 0 yields both sides absent. -/
theorem c2_work_time_range (hd : List Item) :
    (totalCount hd = 0 → calculate_work_time_range hd = (none, none)) ∧
    (0 < totalCount hd →
      OpeningSpec hd (calculate_work_time_range hd).1 ∧
      ClosingSpec hd (calculate_work_time_range hd).2) := by
  constructor
  · intro h
    by_cases hhd : hd = []
    · subst hhd
      rfl
    · unfold calculate_work_time_range
      rw [if_neg hhd, if_pos h]
  · intro htot
    have hhd : hd ≠ [] := by
      intro h
      subst h
      simp [totalCount] at htot
    have hne0 : ¬ (totalCount hd = 0) := by omega
    have hres : calculate_work_time_range hd
        = (minByTime (hd.filter (fun it =>
              decide (8 ≤ it.time ∧ it.time ≤ 12) && activeB hd it)),
           maxByTime (hd.filter (fun it =>
              decide (17 ≤ it.time ∧ it.time ≤ 23) && activeB hd it))) := by
      unfold calculate_work_time_range
      rw [if_neg hhd, if_neg hne0]
      show (minByTime ((hd.filter (fun it => activeB hd it)).filter
              (fun it => decide (8 ≤ it.time ∧ it.time ≤ 12))),
            maxByTime ((hd.filter (fun it => activeB hd it)).filter
              (fun it => decide (17 ≤ it.time ∧ it.time ≤ 23)))) = _
      rw [List.filter_filter, List.filter_filter]
    have hiff8 : ∀ it : Item,
        ((decide (8 ≤ it.time ∧ it.time ≤ 12) && activeB hd it) = true)
          ↔ (ActiveAt hd it ∧ 8 ≤ it.time ∧ it.time ≤ 12) := by
      intro it
      rw [Bool.and_eq_true, decide_eq_true_eq, active_iff hd htot it]
      tauto
    have hiff17 : ∀ it : Item,
        ((decide (17 ≤ it.time ∧ it.time ≤ 23) && activeB hd it) = true)
          ↔ (ActiveAt hd it ∧ 17 ≤ it.time ∧ it.time ≤ 23) := by
      intro it
      rw [Bool.and_eq_true, decide_eq_true_eq, active_iff hd htot it]
      tauto
    rw [hres]
    constructor
    · constructor
      · rw [minByTime_none, List.filter_eq_nil_iff]
        constructor
        · intro hall it hit hc
          exact (hall it hit) ((hiff8 it).mpr ⟨hc.1, hc.2.1, hc.2.2⟩)
        · intro hnone it hit hp
          exact hnone it hit ((hiff8 it).mp hp)
      · intro it hsome
        obtain ⟨hmem, hmin⟩ := minByTime_some _ it hsome
        have hmf := List.mem_filter.mp hmem
        obtain ⟨ha, h8, h12⟩ := (hiff8 it).mp hmf.2
        refine ⟨hmf.1, ha, h8, h12, ?_⟩
        intro u hu hau h8u h12u
        exact hmin u (List.mem_filter.mpr ⟨hu, (hiff8 u).mpr ⟨hau, h8u, h12u⟩⟩)
    · constructor
      · rw [maxByTime_none, List.filter_eq_nil_iff]
        constructor
        · intro hall it hit hc
          exact (hall it hit) ((hiff17 it).mpr ⟨hc.1, hc.2.1, hc.2.2⟩)
        · intro hnone it hit hp
          exact hnone it hit ((hiff17 it).mp hp)
      · intro it hsome
        obtain ⟨hmem, hmax⟩ := maxByTime_some _ it hsome
        have hmf := List.mem_filter.mp hmem
        obtain ⟨ha, h17, h23⟩ := (hiff17 it).mp hmf.2
        refine ⟨hmf.1, ha, h17, h23, ?_⟩
        intro u hu hau h17u h23u
        exact hmax u (List.mem_filter.mpr ⟨hu, (hiff17 u).mpr ⟨hau, h17u, h23u⟩⟩)

theorem c2_witness :
    (totalCount ([] : List Item) = 0 ∧ calculate_work_time_range [] = (none, none)) ∧
    (0 < totalCount [⟨9, 10⟩, ⟨18, 10⟩, ⟨23, 1⟩] ∧
      (OpeningSpec [⟨9, 10⟩, ⟨18, 10⟩, ⟨23, 1⟩]
          (calculate_work_time_range [⟨9, 10⟩, ⟨18, 10⟩, ⟨23, 1⟩]).1 ∧
        ClosingSpec [⟨9, 10⟩, ⟨18, 10⟩, ⟨23, 1⟩]
          (calculate_work_time_range [⟨9, 10⟩, ⟨18, 10⟩, ⟨23, 1⟩]).2)) :=
  ⟨⟨by decide, (c2_work_time_range []).1 (by decide)⟩,
   ⟨by decide, (c2_work_time_range [⟨9, 10⟩, ⟨18, 10⟩, ⟨23, 1⟩]).2 (by decide)⟩⟩

lemma countIn_append (a b : List Item) (k : ℕ) :
    countIn (a ++ b) k = countIn a k + countIn b k := by
  unfold countIn
  rw [List.filter_append, List.map_append, List.sum_append]

lemma countIn_eq_zero (l : List Item) (k : ℕ) (h : k ∉ l.map Item.time) :
    countIn l k = 0 := by
  unfold countIn
  have : l.filter (fun it => decide (it.time = k)) = [] := by
    rw [List.filter_eq_nil_iff]
    intro it hit
    simp only [decide_eq_true_eq]
    intro he
    exact h (he ▸ List.mem_map_of_mem Item.time hit)
  rw [this]
  rfl

lemma countIn_cons (it : Item) (l : List Item) (k : ℕ) :
    countIn (it :: l) k = (if it.time = k then it.count else 0) + countIn l k := by
  unfold countIn
  rw [List.filter_cons]
  by_cases h : it.time = k
  · simp [h]
  · simp [h]

lemma countIn_map_keys (g : ℕ → ℕ) (k : ℕ) :
    ∀ X : List ℕ, X.Nodup →
      countIn (X.map (fun k' => ⟨k', g k'⟩)) k = if k ∈ X then g k else 0 := by
  intro X
  induction X with
  | nil => intro _; simp [countIn]
  | cons a X ih =>
    intro hnd
    rw [List.map_cons, countIn_cons, ih (List.nodup_cons.mp hnd).2]
    by_cases hak : a = k
    · subst hak
      have hno : a ∉ X := (List.nodup_cons.mp hnd).1
      simp [hno]
    · simp [hak, List.mem_cons, Ne.symm hak]

lemma mem_bucketKeys (l : List Item) (k : ℕ) :
    k ∈ bucketKeys l ↔ k ∈ l.map Item.time := by
  unfold bucketKeys sortedKeys
  rw [(List.perm_insertionSort _ _).mem_iff, List.mem_dedup]

lemma bucketKeys_nodup (l : List Item) : (bucketKeys l).Nodup := by
  unfold bucketKeys sortedKeys
  exact (List.perm_insertionSort _ _).nodup_iff.mpr (List.nodup_dedup _)

lemma countIn_normBucket (l : List Item) (k : ℕ) :
    countIn (normBucket l) k = countIn l k := by
  unfold normBucket
  rw [countIn_map_keys (fun k' => countIn l k') k (bucketKeys l) (bucketKeys_nodup l)]
  by_cases hk : k ∈ bucketKeys l
  · rw [if_pos hk]
  · rw [if_neg hk]
    exact (countIn_eq_zero l k (fun hmem => hk ((mem_bucketKeys l k).mpr hmem))).symm

lemma map_time_normBucket (l : List Item) :
    (normBucket l).map Item.time = bucketKeys l := by
  unfold normBucket
  rw [List.map_map]
  have h : (Item.time ∘ fun k => (⟨k, countIn l k⟩ : Item)) = id := rfl
  rw [h, List.map_id]

lemma toFinset_dedup_eq (l : List ℕ) : l.dedup.toFinset = l.toFinset := by
  ext a
  simp [List.mem_toFinset, List.mem_dedup]

lemma sortedKeys_toFinset (l : List ℕ) : (sortedKeys l).toFinset = l.toFinset := by
  unfold sortedKeys
  rw [List.toFinset_eq_of_perm _ _ (List.perm_insertionSort _ _), toFinset_dedup_eq]

/-- Two key lists with the same underlying finset sort to the same list. -/
lemma sortedKeys_eq_of_toFinset_eq {X Y : List ℕ} (h : X.toFinset = Y.toFinset) :
    sortedKeys X = sortedKeys Y := by
  unfold sortedKeys
  apply List.eq_of_perm_of_sorted ?_ (List.sorted_insertionSort _ _)
    (List.sorted_insertionSort _ _)
  have p1 : X.dedup.Perm Y.dedup := by
    apply List.perm_of_nodup_nodup_toFinset_eq (List.nodup_dedup X) (List.nodup_dedup Y)
    rw [toFinset_dedup_eq, toFinset_dedup_eq, h]
  exact ((List.perm_insertionSort _ _).trans p1).trans (List.perm_insertionSort _ _).symm

lemma toFinset_bucketKeys (l : List Item) :
    (bucketKeys l).toFinset = (l.map Item.time).toFinset := by
  unfold bucketKeys
  exact sortedKeys_toFinset _

lemma toFinset_time_normBucket (l : List Item) :
    ((normBucket l).map Item.time).toFinset = (l.map Item.time).toFinset := by
  rw [map_time_normBucket, toFinset_bucketKeys]

lemma normBucket_ext (a b : List Item)
    (hkeys : (a.map Item.time).toFinset = (b.map Item.time).toFinset)
    (hcount : ∀ k, countIn a k = countIn b k) :
    normBucket a = normBucket b := by
  unfold normBucket bucketKeys
  rw [sortedKeys_eq_of_toFinset_eq hkeys]
  apply List.map_congr_left
  intro k _
  rw [hcount k]

lemma perm_toFinset {α : Type} [DecidableEq α] {l₁ l₂ : List α} (h : l₁.Perm l₂) :
    l₁.toFinset = l₂.toFinset := by
  ext a
  simp only [List.mem_toFinset]
  exact h.mem_iff

lemma countIn_perm {l₁ l₂ : List Item} (h : l₁.Perm l₂) (k : ℕ) :
    countIn l₁ k = countIn l₂ k := by
  unfold countIn
  exact ((h.filter _).map Item.count).sum_eq

/-- C6: the key-wise bucket merge of the multi-source aggregator is
commutative and associative, and the normalized bucket (hence every value the
aggregate derives from it, e.g. the full pipeline result) depends only on the
multiset of merged entries, not on the order sources are processed in. -/
theorem c6_merge_comm_assoc :
    (∀ a b : List Item, mergeBuckets a b = mergeBuckets b a) ∧
    (∀ a b c : List Item,
      mergeBuckets (mergeBuckets a b) c = mergeBuckets a (mergeBuckets b c)) ∧
    (∀ xs ys : List Item, xs.Perm ys →
      normBucket xs = normBucket ys ∧ mergedWeekOf xs = mergedWeekOf ys) ∧
    (∀ xs ys : List Item, xs.Perm ys →
      mkAnalysis 30 (normBucket xs) (mergedWeekOf xs)
        = mkAnalysis 30 (normBucket ys) (mergedWeekOf ys)) := by
  have hweek : ∀ xs ys : List Item, xs.Perm ys → mergedWeekOf xs = mergedWeekOf ys := by
    intro xs ys hp
    unfold mergedWeekOf
    apply List.map_congr_left
    intro d _
    rw [countIn_perm hp d]
  have hperm : ∀ xs ys : List Item, xs.Perm ys → normBucket xs = normBucket ys := by
    intro xs ys hp
    apply normBucket_ext
    · exact perm_toFinset (hp.map Item.time)
    · exact countIn_perm hp
  refine ⟨?_, ?_, fun xs ys hp => ⟨hperm xs ys hp, hweek xs ys hp⟩,
    fun xs ys hp => by rw [hperm xs ys hp, hweek xs ys hp]⟩
  · intro a b
    unfold mergeBuckets
    exact hperm _ _ List.perm_append_comm
  · intro a b c
    unfold mergeBuckets
    apply normBucket_ext
    · rw [List.map_append, List.map_append, List.toFinset_append, List.toFinset_append,
        toFinset_time_normBucket, toFinset_time_normBucket, List.map_append,
        List.toFinset_append, List.map_append, List.toFinset_append]
      exact Finset.union_assoc _ _ _
    · intro k
      rw [countIn_append, countIn_append, countIn_normBucket, countIn_normBucket,
        countIn_append, countIn_append]
      omega

theorem c6_witness :
    (([⟨1, 2⟩, ⟨3, 4⟩] : List Item).Perm [⟨3, 4⟩, ⟨1, 2⟩]) ∧
    (normBucket [⟨1, 2⟩, ⟨3, 4⟩] = normBucket [⟨3, 4⟩, ⟨1, 2⟩] ∧
      mergedWeekOf [⟨1, 2⟩, ⟨3, 4⟩] = mergedWeekOf [⟨3, 4⟩, ⟨1, 2⟩]) ∧
    mkAnalysis 30 (normBucket [⟨1, 2⟩, ⟨3, 4⟩]) (mergedWeekOf [⟨1, 2⟩, ⟨3, 4⟩])
      = mkAnalysis 30 (normBucket [⟨3, 4⟩, ⟨1, 2⟩]) (mergedWeekOf [⟨3, 4⟩, ⟨1, 2⟩]) :=
  ⟨List.Perm.swap (⟨3, 4⟩ : Item) (⟨1, 2⟩ : Item) [],
    c6_merge_comm_assoc.2.2.1 [⟨1, 2⟩, ⟨3, 4⟩] [⟨3, 4⟩, ⟨1, 2⟩]
      (List.Perm.swap (⟨3, 4⟩ : Item) (⟨1, 2⟩ : Item) []),
    c6_merge_comm_assoc.2.2.2 [⟨1, 2⟩, ⟨3, 4⟩] [⟨3, 4⟩, ⟨1, 2⟩]
      (List.Perm.swap (⟨3, 4⟩ : Item) (⟨1, 2⟩ : Item) [])⟩

/-- C8 (divergence evidence): a source whose git retrieval fails makes
`run_git_command` call `sys.exit(1)`; the resulting `SystemExit` is not an
`Exception`, so the aggregation loop's `except Exception` does not catch it
and the whole aggregate run aborts — even though the other source analyzes
fine on its own.  The claim's promised `failed_count == 1` aggregate result
is never produced. -/
theorem c8_retrieval_failure_aborts :
    (∀ rest : List SourceOutcome,
      multiAnalyze (SourceOutcome.gitError :: rest) = Except.error RunErr.gitFailed) ∧
    multiAnalyze [SourceOutcome.gitError, SourceOutcome.retrieved evB]
      = Except.error RunErr.gitFailed ∧
    isOkResult (analyzeSingle evB) = true :=
  ⟨fun _ => rfl, rfl, by decide⟩

/-- C9 (first half confirmed, second half divergence evidence): a
single-source run on 0 events exits fatally with the "no data" error, as the
claim says; but the same 0-event source inside a 2-source aggregate also
aborts the whole run (the `sys.exit(1)` at the no-data check raises
`SystemExit`, which `except Exception` does not catch), instead of completing
with `failed_count == 0` — even though the 40-event source analyzes fine on
its own. -/
theorem c9_nodata_aborts_aggregate :
    analyzeSingle [] = Except.error RunErr.noData ∧
    multiAnalyze [SourceOutcome.retrieved [], SourceOutcome.retrieved ev40]
      = Except.error RunErr.noData ∧
    isOkResult (analyzeSingle ev40) = true :=
  ⟨rfl, rfl, by decide⟩

lemma c7_active1 : activeB [⟨10, 5⟩, ⟨18, 5⟩] ⟨10, 5⟩ = true := by
  unfold activeB
  rw [decide_eq_true_eq]
  norm_num [sumSq]

lemma c7_active2 : activeB [⟨10, 5⟩, ⟨18, 5⟩] ⟨18, 5⟩ = true := by
  unfold activeB
  rw [decide_eq_true_eq]
  norm_num [sumSq]

lemma c7_range_eval : calculate_work_time_range [⟨10, 5⟩, ⟨18, 5⟩]
    = (some ⟨10, 5⟩, some ⟨18, 5⟩) := by
  have hfa : ([⟨10, 5⟩, ⟨18, 5⟩] : List Item).filter
      (fun it => activeB [⟨10, 5⟩, ⟨18, 5⟩] it) = [⟨10, 5⟩, ⟨18, 5⟩] := by
    simp [List.filter_cons, c7_active1, c7_active2]
  unfold calculate_work_time_range
  rw [if_neg (by decide : ¬ (([⟨10, 5⟩, ⟨18, 5⟩] : List Item) = [])),
    if_neg (by decide : ¬ (totalCount [⟨10, 5⟩, ⟨18, 5⟩] = 0))]
  show (minByTime ((([⟨10, 5⟩, ⟨18, 5⟩] : List Item).filter
          (fun it => activeB [⟨10, 5⟩, ⟨18, 5⟩] it)).filter
          (fun it => decide (8 ≤ it.time ∧ it.time ≤ 12))),
        maxByTime ((([⟨10, 5⟩, ⟨18, 5⟩] : List Item).filter
          (fun it => activeB [⟨10, 5⟩, ⟨18, 5⟩] it)).filter
          (fun it => decide (17 ≤ it.time ∧ it.time ≤ 23))))
      = (some ⟨10, 5⟩, some ⟨18, 5⟩)
  rw [hfa]
  decide

/-- C7 counterexample: on the bucket `{10 ↦ 5, 18 ↦ 5}` the detector finds
closing hour 18, but the result record stores `18 % 12 = 6`, which does not
lie in `[17, 23]` — the claim is false of the stored value. -/
theorem c7_counterexample :
    (mkAnalysis 50 [⟨10, 5⟩, ⟨18, 5⟩] [⟨1, 10⟩]).closingHour = some 6 ∧
    ¬ (17 ≤ 6 ∧ 6 ≤ 23) := by
  constructor
  · show storedClosing (calculate_work_time_range [⟨10, 5⟩, ⟨18, 5⟩]).2 = some 6
    rw [c7_range_eval]
    rfl
  · decide

lemma work_time_range_cases (hd : List Item) :
    calculate_work_time_range hd = (none, none) ∨
    calculate_work_time_range hd
      = (minByTime ((hd.filter (fun it => activeB hd it)).filter
            (fun it => decide (8 ≤ it.time ∧ it.time ≤ 12))),
         maxByTime ((hd.filter (fun it => activeB hd it)).filter
            (fun it => decide (17 ≤ it.time ∧ it.time ≤ 23)))) := by
  by_cases h1 : hd = []
  · left
    subst h1
    rfl
  by_cases h2 : totalCount hd = 0
  · left
    unfold calculate_work_time_range
    rw [if_neg h1, if_pos h2]
  · right
    unfold calculate_work_time_range
    rw [if_neg h1, if_neg h2]

/-- C7 amended: in every result record (single-source `thr = 50` or aggregate
`thr = 30`), a present opening hour lies in `[8,12]`, but the *stored*
closing hour is the detected closing hour (which does lie in `[17,23]`)
reduced mod 12, so the stored value lies in `[5,11]`. -/
theorem c7_window_bounds_amended (thr : ℕ) (hd wd : List Item) :
    (∀ oh, (mkAnalysis thr hd wd).openingHour = some oh → 8 ≤ oh ∧ oh ≤ 12) ∧
    (∀ ch, (mkAnalysis thr hd wd).closingHour = some ch →
      5 ≤ ch ∧ ch ≤ 11 ∧
      ∃ c : Item, (calculate_work_time_range hd).2 = some c ∧
        17 ≤ c.time ∧ c.time ≤ 23 ∧ ch = c.time % 12) := by
  have hop : (mkAnalysis thr hd wd).openingHour
      = (calculate_work_time_range hd).1.map Item.time := rfl
  have hcl : (mkAnalysis thr hd wd).closingHour
      = storedClosing (calculate_work_time_range hd).2 := rfl
  constructor
  · intro oh h
    rw [hop] at h
    rcases work_time_range_cases hd with hc | hc
    · rw [hc] at h
      cases h
    · rw [hc] at h
      obtain ⟨it, hsome, htime⟩ := Option.map_eq_some'.mp h
      obtain ⟨hmem, -⟩ := minByTime_some _ _ hsome
      have := (List.mem_filter.mp hmem).2
      rw [decide_eq_true_eq] at this
      omega
  · intro ch h
    rw [hcl] at h
    rcases work_time_range_cases hd with hc | hc
    · rw [hc] at h
      cases h
    · have hsnd : (calculate_work_time_range hd).2
          = maxByTime ((hd.filter (fun it => activeB hd it)).filter
              (fun it => decide (17 ≤ it.time ∧ it.time ≤ 23))) := by rw [hc]
      rw [hsnd] at h
      cases hmax : maxByTime ((hd.filter (fun it => activeB hd it)).filter
          (fun it => decide (17 ≤ it.time ∧ it.time ≤ 23))) with
      | none =>
        rw [hmax] at h
        cases h
      | some c =>
        rw [hmax] at h
        obtain ⟨hmem, -⟩ := maxByTime_some _ _ hmax
        have hrange := (List.mem_filter.mp hmem).2
        rw [decide_eq_true_eq] at hrange
        have hne : c.time ≠ 0 := by omega
        simp only [storedClosing] at h
        rw [if_pos hne] at h
        have hch : ch = c.time % 12 := (Option.some.injEq _ _ ▸ h).symm
        refine ⟨by omega, by omega, c, ?_, hrange.1, hrange.2, hch⟩
        rw [hsnd, hmax]

theorem c7_witness :
    ((mkAnalysis 50 [⟨10, 5⟩, ⟨18, 5⟩] [⟨1, 10⟩]).openingHour = some 10 ∧
      8 ≤ 10 ∧ 10 ≤ 12) ∧
    ((mkAnalysis 50 [⟨10, 5⟩, ⟨18, 5⟩] [⟨1, 10⟩]).closingHour = some 6 ∧
      (5 ≤ 6 ∧ 6 ≤ 11 ∧
        ∃ c : Item, (calculate_work_time_range [⟨10, 5⟩, ⟨18, 5⟩]).2 = some c ∧
          17 ≤ c.time ∧ c.time ≤ 23 ∧ 6 = c.time % 12)) := by
  have ho : (mkAnalysis 50 [⟨10, 5⟩, ⟨18, 5⟩] [⟨1, 10⟩]).openingHour = some 10 := by
    show ((calculate_work_time_range [⟨10, 5⟩, ⟨18, 5⟩]).1).map Item.time = some 10
    rw [c7_range_eval]
    rfl
  have hc : (mkAnalysis 50 [⟨10, 5⟩, ⟨18, 5⟩] [⟨1, 10⟩]).closingHour = some 6 := by
    show storedClosing (calculate_work_time_range [⟨10, 5⟩, ⟨18, 5⟩]).2 = some 6
    rw [c7_range_eval]
    rfl
  exact ⟨⟨ho, (c7_window_bounds_amended 50 [⟨10, 5⟩, ⟨18, 5⟩] [⟨1, 10⟩]).1 10 ho⟩,
    ⟨hc, (c7_window_bounds_amended 50 [⟨10, 5⟩, ⟨18, 5⟩] [⟨1, 10⟩]).2 6 hc⟩⟩
